import Mathlib

/-
Verification of the Kaplan-Meier survival-curve derivation engine
(column inference heuristics, product-limit series construction,
at-risk lookup, and mapping resolution orchestration) against its
natural-language specification.

Shallow embedding conventions:
* JavaScript numbers are modelled as exact rationals (ℚ); the claims under
  study do not depend on IEEE-754 rounding.
* JavaScript objects (rows) are association lists from string keys to a
  small dynamic-value type; JS Maps are association lists with
  update-in-place / append-on-new-key semantics, matching insertion order.
* String-returning regex operations of the source are implemented
  character-structurally over List Char so that all definitions are
  executable by kernel reduction.
-/

namespace KM

/-! ## Character and string utilities (regex replacements used by the source) -/

def isWS (c : Char) : Bool := c.isWhitespace


/-- The characters kept by the source's strip `replace([^0-9eE.+-], '')`
inside parseNumber. -/
def isNumChar (c : Char) : Bool :=
  c.isDigit || c = 'e' || c = 'E' || c = '.' || c = '+' || c = '-'

/-- Replace every maximal run of characters satisfying p by the
replacement list r (models `String.replace(/[xy]+/g, r)`); the flag
records whether the previous character belonged to a run. -/
def replaceRunsAux (p : Char → Bool) (r : List Char) : Bool → List Char → List Char
  | _, [] => []
  | inRun, c :: cs =>
    if p c then (if inRun then [] else r) ++ replaceRunsAux p r true cs
    else c :: replaceRunsAux p r false cs

def replaceRuns (p : Char → Bool) (r : String) (s : String) : String :=
  ⟨replaceRunsAux p r.data false s.data⟩

/-- Model of `String.prototype.trim`. -/
def trimStr (s : String) : String :=
  ⟨((s.data.dropWhile isWS).reverse.dropWhile isWS).reverse⟩

/-- Model of `String.prototype.toLowerCase` (ASCII suffices for this code). -/
def lowerStr (s : String) : String := ⟨s.data.map Char.toLower⟩

/-- Model of `replace(/\s+/g, '')`. -/
def removeWS (s : String) : String := ⟨s.data.filter (fun c => !isWS c)⟩

/-- Model of `replace(/[\s_]+/g, '')`. -/
def removeWSU (s : String) : String :=
  ⟨s.data.filter (fun c => !(isWS c || c = '_'))⟩

/-- Substring containment on char lists (the source's case-insensitive
keyword regexes are plain substring tests after lowercasing). -/
def containsL : List Char → List Char → Bool
  | _, [] => true
  | [], _ :: _ => false
  | c :: cs, p :: ps => (List.isPrefixOf (p :: ps) (c :: cs)) || containsL cs (p :: ps)

/-- Case-insensitive substring test: models `/word/i.test(s)` for the
keyword patterns of the source. -/
def testPat (pat : String) (s : String) : Bool :=
  containsL (lowerStr s).data (lowerStr pat).data

/-! ## JS dynamic values -/

inductive JsValue
  | num (q : ℚ)
  | str (s : String)
  | bool (b : Bool)
  | null
deriving DecidableEq

/-- A row of tabular data: a JS object as an association list. -/
abbrev KaplanRow := List (String × JsValue)

/-- JS nullish test (`raw === null || raw === undefined`), with `none`
standing for `undefined`. -/
def nullish : Option JsValue → Bool
  | none => true
  | some .null => true
  | _ => false

/-! ## Decimal rendering (JS String(number)) restricted to integers.
Non-integer rationals are rendered injectively (numerator/denominator);
the source only uses the rendered string for distinctness counting and
group labels, and every claim under study involves integer or string
group codes. -/

def digitChar (n : ℕ) : Char := Char.ofNat (48 + n)

def natToCharsAux : ℕ → ℕ → List Char
  | 0, _ => []
  | fuel + 1, n =>
    if n = 0 then [] else natToCharsAux fuel (n / 10) ++ [digitChar (n % 10)]

def natToStr (n : ℕ) : String :=
  if n = 0 then "0" else ⟨natToCharsAux n n⟩

def intToStr (i : ℤ) : String :=
  if i < 0 then "-" ++ natToStr i.natAbs else natToStr i.natAbs

def ratToStr (q : ℚ) : String :=
  if q.den = 1 then intToStr q.num else intToStr q.num ++ "/" ++ natToStr q.den

/-- Model of `String(raw)` for the non-nullish values it is applied to. -/
def valueToString : JsValue → String
  | .num q => ratToStr q
  | .str s => s
  | .bool b => if b then "true" else "false"
  | .null => "null"

/-! ## Number parsing: the source's `parseNumber` strips every character
outside `[0-9eE.+-]` and applies JS `Number()`; we implement the
decimal-literal grammar of `Number` over that restricted alphabet. -/

def digitsToNat (cs : List Char) : ℕ :=
  cs.foldl (fun acc c => acc * 10 + (c.toNat - 48)) 0

/-- Split a char list at the first occurrence of a separator satisfying p,
returning none if the separator is absent. -/
def splitFirst (p : Char → Bool) : List Char → Option (List Char × List Char)
  | [] => none
  | c :: cs =>
    if p c then some ([], cs)
    else (splitFirst p cs).map (fun pr => (c :: pr.1, pr.2))

/-- Mantissa: `Digits [. Digits?] | . Digits` (at least one digit overall,
at most one dot, no signs). -/
def parseMantissa (cs : List Char) : Option ℚ :=
  match splitFirst (· = '.') cs with
  | none =>
    if cs ≠ [] ∧ cs.all Char.isDigit then some (digitsToNat cs) else none
  | some (ip, fp) =>
    if (ip ≠ [] ∨ fp ≠ []) ∧ ip.all Char.isDigit ∧ fp.all Char.isDigit ∧
        fp.all (· ≠ '.') ∧ ip.all (· ≠ '.') then
      some ((digitsToNat ip : ℚ) + (digitsToNat fp : ℚ) / (10 : ℚ) ^ fp.length)
    else none

/-- Exponent part after e/E: optional sign then nonempty digits. -/
def parseExponent (cs : List Char) : Option ℤ :=
  let core : List Char → Option ℤ := fun ds =>
    if ds ≠ [] ∧ ds.all Char.isDigit then some (digitsToNat ds) else none
  match cs with
  | '+' :: rest => core rest
  | '-' :: rest => (core rest).map (fun n => -n)
  | _ => core cs

/-- Signed decimal literal with optional exponent. -/
def parseSignedLiteral (cs : List Char) : Option ℚ :=
  let unsigned : List Char → Option ℚ := fun body =>
    match splitFirst (fun c => c = 'e' || c = 'E') body with
    | none => parseMantissa body
    | some (m, ex) =>
      match parseMantissa m, parseExponent ex with
      | some q, some k => some (q * (10 : ℚ) ^ k)
      | _, _ => none
  match cs with
  | '+' :: rest => unsigned rest
  | '-' :: rest => (unsigned rest).map (fun q => -q)
  | _ => unsigned cs

/-- JS `Number()` on a string over the stripped alphabet: the empty string
converts to 0, otherwise the decimal-literal grammar applies (NaN ↦ none). -/
def jsStringToNumber (s : String) : Option ℚ :=
  let cs := s.data.filter isNumChar
  if cs = [] then some 0 else parseSignedLiteral cs

/-- Source `parseNumber`: finite numbers pass through; strings are stripped
to `[0-9eE.+-]` and converted; everything else is undefined. -/
def parseNumber : Option JsValue → Option ℚ
  | none => none
  | some .null => none
  | some (.num q) => some q
  | some (.str s) => jsStringToNumber s
  | some (.bool _) => none

/-- Source `parseBoolean`. -/
def parseBoolean : Option JsValue → Option Bool
  | none => none
  | some .null => none
  | some (.bool b) => some b
  | some (.num q) => some (decide (0 < q))
  | some (.str s) =>
    let normalized := lowerStr (trimStr s)
    if normalized = "" then none
    else if normalized ∈ ["true", "yes", "y", "1"] then some true
    else if normalized ∈ ["false", "no", "n", "0"] then some false
    else none

/-- Source `prettifyLabel`: dash/underscore runs to spaces, collapse
whitespace, uppercase word-initial characters, trim, defaulting to
"Series" when empty. -/
def isWordChar (c : Char) : Bool := c.isAlphanum || c = '_'

def upWordsAux (prev : Char) : List Char → List Char
  | [] => []
  | c :: cs =>
    (if isWordChar c ∧ ¬ isWordChar prev then c.toUpper else c) :: upWordsAux c cs

def prettifyLabel (s : String) : String :=
  let a := replaceRuns (fun c => c = '_' || c = '-') " " s
  let b := replaceRuns isWS " " a
  let c := trimStr ⟨upWordsAux ' ' b.data⟩
  if c = "" then "Series" else c

/-! ## Column-name patterns and key matching -/

def TIME_PATTERNS : List String := ["time", "month", "week", "day", "follow"]

def GROUP_PATTERNS : List String :=
  ["group", "arm", "cohort", "treatment", "variant", "strata"]

def EVENT_PATTERNS : List String :=
  ["event", "status", "outcome", "dead", "death", "failure", "recurrence"]

def SURVIVAL_PATTERNS : List String := ["survival", "surv", "prob", "pct", "percent"]

def CENSOR_PATTERNS : List String := ["censor"]

/-- Source `findByPatterns`: first key such that some pattern matches the
raw key, its dash/underscore-normalized form, or the whitespace-collapsed
form of the latter. -/
def findByPatterns (keys : List String) (patterns : List String) : Option String :=
  keys.find? (fun key =>
    let trimmed := trimStr key
    let normalized := replaceRuns (fun c => c = '_' || c = '-') " " trimmed
    let collapsed := removeWS normalized
    patterns.any (fun pat =>
      testPat pat key || testPat pat normalized || testPat pat collapsed))

/-- Source `collectKeys`: union of row keys in first-appearance order
(JS Set insertion order). -/
def collectKeys (rows : List KaplanRow) : List String :=
  rows.foldl
    (fun acc row =>
      row.foldl (fun acc kv => if kv.1 ∈ acc then acc else acc ++ [kv.1]) acc)
    []

/-- First binding of a key in a row (JS `key in row` then `row[key]`). -/
def assocFind (row : KaplanRow) (key : String) : Option JsValue :=
  (row.find? (fun kv => kv.1 = key)).map (fun kv => kv.2)

/-- Source `getValue`: exact key, then trimmed, whitespace-collapsed,
underscored, and finally normalized (whitespace/underscore-free,
lowercased) lookup; the empty key is falsy and yields undefined. -/
def getValue (row : KaplanRow) (key : String) : Option JsValue :=
  if key = "" then none
  else match assocFind row key with
  | some v => some v
  | none =>
    let trimmed := trimStr key
    match (if trimmed = "" then none else assocFind row trimmed) with
    | some v => some v
    | none =>
      let collapsed := removeWS trimmed
      match (if collapsed = "" then none else assocFind row collapsed) with
      | some v => some v
      | none =>
        let underscored := replaceRuns isWS "_" trimmed
        match (if underscored = "" then none else assocFind row underscored) with
        | some v => some v
        | none =>
          let target := lowerStr (removeWSU trimmed)
          if target = "" then none
          else (row.find? (fun kv => lowerStr (removeWSU kv.1) = target)).map
            (fun kv => kv.2)

/-- Lookup through an optional key (`key ? getValue(row, key) : undefined`);
note `getValue` itself already returns undefined for the falsy empty key. -/
def getValueOpt (row : KaplanRow) : Option String → Option JsValue
  | some k => getValue row k
  | none => none

/-! ## Column mapping and heuristic inference -/

structure ColumnMapping where
  time : String
  group : Option String := none
  event : Option String := none
  censored : Option String := none
  survival : Option String := none
deriving DecidableEq

structure InferenceResult where
  mapping : Option ColumnMapping
  confidence : ℚ
deriving DecidableEq

/-- JS truthiness of an optional string field (`undefined` and `''` falsy). -/
def optTruthy : Option String → Bool
  | some s => s ≠ ""
  | none => false

/-- Distinct-value count and string-vs-numeric balance of a column over the
first 50 rows (the scoring pass inside `inferGroupColumn`). seen collects
distinct trimmed rendered values; the score is stringCount - numericCount. -/
def groupColumnStats (samples : List KaplanRow) (key : String) : ℕ × ℤ :=
  let acc := samples.foldl
    (fun (acc : List String × ℤ) row =>
      let raw := getValue row key
      if nullish raw then acc
      else
        let stringValue := trimStr (valueToString ((raw).getD .null))
        if stringValue = "" then acc
        else
          let seen := if stringValue ∈ acc.1 then acc.1 else acc.1 ++ [stringValue]
          if (parseNumber raw).isSome then (seen, acc.2 - 1) else (seen, acc.2 + 1))
    ([], 0)
  (acc.1.length, acc.2)

/-- Source `inferGroupColumn`: explicit group-pattern match first (if not
reserved), otherwise the best-scoring categorical candidate over a
50-row sample. -/
def inferGroupColumn (rows : List KaplanRow) (keys : List String)
    (reservedKeys : List String) : Option String :=
  let explicit := findByPatterns keys GROUP_PATTERNS
  let best := keys.foldl
    (fun (best : Option (String × ℤ)) key =>
      if key ∈ reservedKeys then best
      else
        let st := groupColumnStats (rows.take 50) key
        if st.1 < 2 ∨ 20 < st.1 then best
        else
          let isLowCardinality := st.1 ≤ 10
          let categoricalScore := st.2
          if categoricalScore ≤ 0 ∧ ¬ isLowCardinality then best
          else
            let diversityScore : ℤ := min st.1 10
            let totalScore := categoricalScore + diversityScore
            match best with
            | none => some (key, totalScore)
            | some b => if b.2 < totalScore then some (key, totalScore) else best)
    none
  match explicit with
  | some e => if e ∈ reservedKeys then best.map (fun b => b.1) else some e
  | none => best.map (fun b => b.1)

/-- The source's `timeKey` binding: first time-pattern match with the
weaker month/week/day fallback. -/
def heuristicTimeKey (rows : List KaplanRow) : Option String :=
  (findByPatterns (collectKeys rows) TIME_PATTERNS).orElse
    (fun _ => (collectKeys rows).find?
      (fun k => testPat "month" k || testPat "week" k || testPat "day" k))

/-- The source's `eventCandidate` binding. -/
def heuristicEventKey (rows : List KaplanRow) : Option String :=
  findByPatterns (collectKeys rows) EVENT_PATTERNS

/-- The source's `survivalCandidate` binding. -/
def heuristicSurvivalKey (rows : List KaplanRow) : Option String :=
  findByPatterns (collectKeys rows) SURVIVAL_PATTERNS

/-- The source's `reserved` set: the time key plus the event and survival
candidates when present. -/
def heuristicReserved (rows : List KaplanRow) (timeKey : String) : List String :=
  [timeKey] ++ (heuristicEventKey rows).toList ++ (heuristicSurvivalKey rows).toList

/-- The source's `groupKey` binding, as a function of the rows alone. -/
def heuristicGroupKey (rows : List KaplanRow) : Option String :=
  match heuristicTimeKey rows with
  | none => none
  | some tk => inferGroupColumn rows (collectKeys rows) (heuristicReserved rows tk)

/-- Source `deriveMappingHeuristically`. -/
def deriveMappingHeuristically (rows : List KaplanRow) : InferenceResult :=
  if rows = [] then ⟨none, 0⟩
  else
    let keys := collectKeys rows
    if "time" ∈ keys ∧ "status" ∈ keys ∧ "group" ∈ keys then
      ⟨some { time := "time", event := some "status", group := some "group" }, 1⟩
    else
      match heuristicTimeKey rows with
      | none => ⟨none, 0⟩
      | some timeKey =>
        let eventCandidate := heuristicEventKey rows
        let survivalCandidate := heuristicSurvivalKey rows
        let groupKey := inferGroupColumn rows keys (heuristicReserved rows timeKey)
        let censorKey := findByPatterns keys CENSOR_PATTERNS
        match eventCandidate with
        | some ev =>
          let m : ColumnMapping :=
            { time := timeKey, group := groupKey, event := some ev
              censored := censorKey }
          ⟨some m, if groupKey.isSome then 8/10 else 6/10⟩
        | none =>
          match survivalCandidate with
          | some sv =>
            let m : ColumnMapping :=
              { time := timeKey
                group := if groupKey.isSome then groupKey else some (prettifyLabel sv)
                censored := censorKey, survival := some sv }
            ⟨some m, if groupKey.isSome then 7/10 else 5/10⟩
          | none => ⟨none, 0⟩

/-! ## Series data model -/

structure Step where
  time : ℚ
  survival : ℚ
  atRisk : Option ℤ := none
deriving DecidableEq

structure CensorPoint where
  time : ℚ
  survival : ℚ
deriving DecidableEq

structure KaplanSeries where
  group : String
  steps : List Step
  censored : List CensorPoint
  atRiskMap : List (ℚ × ℤ)
deriving DecidableEq

/-- Stable insertion sort matching `Array.prototype.sort` with a numeric
key comparator: an element is inserted after every strictly smaller
element and before equal ones, preserving original order on ties. -/
def sInsert (lt : α → α → Bool) (x : α) : List α → List α
  | [] => [x]
  | y :: ys => if lt y x then y :: sInsert lt x ys else x :: y :: ys

def sSort (lt : α → α → Bool) : List α → List α
  | [] => []
  | x :: xs => sInsert lt x (sSort lt xs)

/-! ## Event-based construction (`buildEventSeries`) -/

structure Bucket where
  events : ℕ
  censored : ℕ
deriving DecidableEq

abbrev Timeline := List (ℚ × Bucket)

def tlGet (tl : Timeline) (t : ℚ) : Option Bucket :=
  (tl.find? (fun p => p.1 = t)).map (fun p => p.2)

/-- `timeline.get(time) ?? {events:0,censored:0}`, increment one counter,
`timeline.set(time, bucket)`: JS Map update-in-place or append. -/
def tlAdd : Timeline → ℚ → Bool → Timeline
  | [], t, isEvent => [(t, if isEvent then ⟨1, 0⟩ else ⟨0, 1⟩)]
  | (t', b) :: rest, t, isEvent =>
    if t' = t then
      (t', if isEvent then { b with events := b.events + 1 }
        else { b with censored := b.censored + 1 }) :: rest
    else (t', b) :: tlAdd rest t isEvent

def groupedAdd : List (String × Timeline) → String → ℚ → Bool → List (String × Timeline)
  | [], g, t, isEvent => [(g, tlAdd [] t isEvent)]
  | (g', tl) :: rest, g, t, isEvent =>
    if g' = g then (g', tlAdd tl t isEvent) :: rest
    else (g', tl) :: groupedAdd rest g t isEvent

def TRUE_EVENT_WORDS : List String :=
  ["true", "yes", "y", "event", "dead", "death", "failed", "failure", "1"]

def FALSE_EVENT_WORDS : List String :=
  ["false", "no", "n", "censored", "censor", "alive", "survived", "0"]

/-- The `??` fallback chain over the conventional censor keys
(`getValue(row,'censored') ?? getValue(row,'censor') ?? ... `), which skips
both undefined and null intermediate results. -/
def censorFallback (row : KaplanRow) : Option JsValue :=
  ["censored", "censor", "Censored", "Censor"].foldr
    (fun key acc => let v := getValue row key; if nullish v then acc else v)
    none

/-- The per-row body of the `rows.forEach` grouping pass of
`buildEventSeries`: parsed time, group label, and whether the row counts
as an event (`isEvent && !censored`); none when the time does not parse. -/
def classifyRow (m : ColumnMapping) (row : KaplanRow) : Option (ℚ × String × Bool) :=
  match parseNumber (getValue row m.time) with
  | none => none
  | some time =>
    let rawGroup := if optTruthy m.group then getValueOpt row m.group else none
    let group := if nullish rawGroup then "Group"
      else valueToString (rawGroup.getD .null)
    let eventRaw := if optTruthy m.event then getValueOpt row m.event else none
    let isEvent :=
      if nullish eventRaw then true
      else
        let v := eventRaw.getD .null
        let s := lowerStr (trimStr (valueToString v))
        match parseNumber (some v) with
        | some n => decide (0 < n)
        | none =>
          if s ∈ TRUE_EVENT_WORDS then true
          else if s ∈ FALSE_EVENT_WORDS then false
          else true
    let censoredRaw :=
      if optTruthy m.censored then getValueOpt row m.censored else censorFallback row
    let isCensored := (parseBoolean censoredRaw).getD (!isEvent)
    some (time, group, isEvent && !isCensored)

def groupedOf (rows : List KaplanRow) (m : ColumnMapping) : List (String × Timeline) :=
  rows.foldl
    (fun acc row =>
      match classifyRow m row with
      | none => acc
      | some (t, g, isEvent) => groupedAdd acc g t isEvent)
    []

def bucketSize (b : Bucket) : ℕ := b.events + b.censored

def totalOf (tl : Timeline) : ℕ := (tl.map (fun p => bucketSize p.2)).sum

def orderedTimesOf (tl : Timeline) : List ℚ :=
  sSort (fun a b => decide (a < b)) (tl.map (fun p => p.1))

structure BuildState where
  atRisk : ℤ
  survival : ℚ
  steps : List Step
  censoredPoints : List CensorPoint
  atRiskMap : List (ℚ × ℤ)
deriving DecidableEq

/-- JS Map `set`: update in place if the key exists, append otherwise. -/
def amSet : List (ℚ × ℤ) → ℚ → ℤ → List (ℚ × ℤ)
  | [], t, v => [(t, v)]
  | (t', v') :: rest, t, v =>
    if t' = t then (t', v) :: rest else (t', v') :: amSet rest t v

/-- The body of the `orderedTimes.forEach` loop of `buildEventSeries`:
record the pre-drop at-risk count, skip when none remain at risk, apply
the product-limit update only when the bucket has events, emit the step
and one censored point per censored subject, then decrement at-risk. -/
def processTime (tl : Timeline) (s : BuildState) (t : ℚ) : BuildState :=
  let s := { s with atRiskMap := amSet s.atRiskMap t s.atRisk }
  if s.atRisk ≤ 0 then s
  else
    let bucket := (tlGet tl t).getD ⟨0, 0⟩
    let survival :=
      if 0 < bucket.events then
        s.survival * (((s.atRisk : ℚ) - (bucket.events : ℚ)) / (s.atRisk : ℚ))
      else s.survival
    { atRisk := s.atRisk - (bucket.events + bucket.censored)
      survival := survival
      steps := s.steps ++ [⟨t, survival, some s.atRisk⟩]
      censoredPoints := s.censoredPoints ++ List.replicate bucket.censored ⟨t, survival⟩
      atRiskMap := s.atRiskMap }

def initialState (total : ℕ) : BuildState :=
  { atRisk := total, survival := 100
    steps := [⟨0, 100, some total⟩], censoredPoints := []
    atRiskMap := [(0, (total : ℤ))] }

def buildGroupSeries (g : String) (tl : Timeline) : KaplanSeries :=
  let total := totalOf tl
  let final := (orderedTimesOf tl).foldl (processTime tl) (initialState total)
  ⟨g, final.steps, final.censoredPoints, final.atRiskMap⟩

def buildEventSeries (rows : List KaplanRow) (m : ColumnMapping) : List KaplanSeries :=
  (groupedOf rows m).map (fun p => buildGroupSeries p.1 p.2)

/-! ## Survival-based construction (`buildSurvivalSeries`) -/

def ensurePercent (value : ℚ) : ℚ := if value ≤ 1 then value * 100 else value

/-- The per-row body of the `rows.forEach` pass of `buildSurvivalSeries`:
time, group label, percent survival and censor flag; none when time or
survival does not parse. -/
def survRowData (m : ColumnMapping) (row : KaplanRow) :
    Option (ℚ × String × ℚ × Bool) :=
  let survivalKey := m.survival.getD ""
  match parseNumber (getValue row m.time), parseNumber (getValue row survivalKey) with
  | some time, some survival =>
    let rawGroup := if optTruthy m.group then getValueOpt row m.group else none
    let group := if nullish rawGroup then prettifyLabel survivalKey
      else valueToString (rawGroup.getD .null)
    let percent := ensurePercent survival
    let censoredRaw :=
      if optTruthy m.censored then getValueOpt row m.censored
      else getValue row "censored"
    let censored := (parseBoolean censoredRaw).getD false
    some (time, group, percent, censored)
  | _, _ => none

def svAdd : List (String × KaplanSeries) → String → ℚ → ℚ → Bool →
    List (String × KaplanSeries)
  | [], g, t, pct, cen =>
    let fresh : KaplanSeries :=
      { group := g
        steps := [⟨0, 100, none⟩, ⟨t, pct, none⟩]
        censored := if cen then [⟨t, pct⟩] else []
        atRiskMap := [] }
    [(g, fresh)]
  | (g', s) :: rest, g, t, pct, cen =>
    if g' = g then
      let s2 : KaplanSeries :=
        { s with
          steps := s.steps ++ [⟨t, pct, none⟩]
          censored := s.censored ++ (if cen then [⟨t, pct⟩] else []) }
      (g', s2) :: rest
    else (g', s) :: svAdd rest g t pct cen

def setHeadSurvival : List Step → List Step
  | [] => []
  | st :: rest => { st with survival := 100 } :: rest

/-- The finalization pass of `buildSurvivalSeries`: stable sort of steps
and censor marks by time, then force the first step to `(0, 100)`. -/
def svFinalize (s : KaplanSeries) : KaplanSeries :=
  let steps := sSort (fun a b : Step => decide (a.time < b.time)) s.steps
  let steps :=
    if steps = [] ∨ steps.head?.map (fun st => st.time) ≠ some 0 then
      ⟨0, 100, none⟩ :: steps
    else setHeadSurvival steps
  { s with
    steps := steps
    censored := sSort (fun a b : CensorPoint => decide (a.time < b.time)) s.censored }

def buildSurvivalSeries (rows : List KaplanRow) (m : ColumnMapping) :
    List KaplanSeries :=
  if ¬ optTruthy m.survival then []
  else
    let grouped := rows.foldl
      (fun acc row =>
        match survRowData m row with
        | none => acc
        | some (t, g, pct, cen) => svAdd acc g t pct cen)
      []
    grouped.map (fun p => svFinalize p.2)

/-- Source `buildSeries` dispatch. -/
def buildSeries (rows : List KaplanRow) (m : ColumnMapping) : List KaplanSeries :=
  if m.time = "" then []
  else if optTruthy m.event then buildEventSeries rows m
  else if optTruthy m.survival then buildSurvivalSeries rows m
  else buildEventSeries rows m

/-! ## At-risk lookup (`getAtRiskAtTime`) -/

/-- Result of the at-risk lookup: an integer count or the `'-'` "no data"
dash sentinel. -/
inductive AtRiskValue
  | count (n : ℤ)
  | dash
deriving DecidableEq

def amLookup (m : List (ℚ × ℤ)) (t : ℚ) : Option ℤ :=
  (m.find? (fun p => p.1 = t)).map (fun p => p.2)

/-- Source `getAtRiskAtTime`: empty map → dash; exact key → its count;
otherwise a fold computes the largest key ≤ query starting from the `-1`
sentinel; if the sentinel survives, fall back to `steps[0]?.atRisk ?? '-'`. -/
def getAtRiskAtTime (series : KaplanSeries) (time : ℚ) : AtRiskValue :=
  if series.atRiskMap = [] then .dash
  else match amLookup series.atRiskMap time with
  | some v => .count v
  | none =>
    let closestTime := series.atRiskMap.foldl
      (fun c p => if p.1 ≤ time ∧ c < p.1 then p.1 else c) (-1 : ℚ)
    if closestTime ≠ -1 then .count ((amLookup series.atRiskMap closestTime).getD 0)
    else match series.steps.head? with
    | some st => match st.atRisk with
      | some n => .count n
      | none => .dash
    | none => .dash

/-- Modelled from the spec: the at-risk lookup as the specification words
it — exact match wins; otherwise the value recorded at the largest
recorded time ≤ the query; otherwise the initial step's at-risk value
(dash when absent); dash for an empty map. -/
def atRiskSpecLookup (series : KaplanSeries) (time : ℚ) : AtRiskValue :=
  if series.atRiskMap = [] then .dash
  else match amLookup series.atRiskMap time with
  | some v => .count v
  | none =>
    match ((series.atRiskMap.map (fun p => p.1)).filter (fun k => k ≤ time)).max? with
    | some k => .count ((amLookup series.atRiskMap k).getD 0)
    | none =>
      match series.steps.head? with
      | some st => match st.atRisk with
        | some n => .count n
        | none => .dash
      | none => .dash

/-! ## Mapping resolution (`resolveMapping` effect and `fetchLLMMapping`) -/

/-- Collaborator payload (`LLMColumnInference`); confidence is optional to
model a JSON body that omits it. -/
structure LLMColumnInference where
  mapping : Option ColumnMapping
  confidence : Option ℚ
deriving DecidableEq

/-- Possible outcomes of the `fetch('/api/kaplan/infer-columns')` call:
a thrown network error, a non-success HTTP status, a body that fails to
parse as JSON, a null-ish payload, or a well-formed payload. -/
inductive FetchOutcome
  | networkError
  | badStatus
  | malformedBody
  | nullPayload
  | ok (payload : LLMColumnInference)
deriving DecidableEq

/-- `rows.slice(0, 25)`: the sample posted to the collaborator. -/
def llmRequestRows (rows : List KaplanRow) : List KaplanRow := rows.take 25

/-- Source `fetchLLMMapping`: empty input short-circuits to null; every
failure outcome (caught exception, bad status, malformed or null body,
null mapping) yields null rather than an error. -/
def fetchLLMMapping (rows : List KaplanRow) (outcome : FetchOutcome) :
    Option LLMColumnInference :=
  if rows = [] then none
  else match outcome with
  | .ok payload => if payload.mapping = none then none else some payload
  | _ => none

/-- Observable result of one (uncancelled) run of the `resolveMapping`
async effect: the committed mapping state, whether it was tagged as
LLM-sourced, and whether the collaborator was invoked at all. -/
structure ResolveOutcome where
  mapping : Option ColumnMapping
  confidence : ℚ
  usedLLM : Bool
  llmCalled : Bool
deriving DecidableEq

/-- Source `resolveMapping` (the body of the effect, run to completion):
accept the heuristic immediately at confidence ≥ 0.75; otherwise consult
the collaborator, accept any non-null collaborator mapping, and fall back
to the heuristic (or to the null/0 terminal state) on failure. -/
def resolveMapping (rows : List KaplanRow) (outcome : FetchOutcome) : ResolveOutcome :=
  let heuristic := deriveMappingHeuristically rows
  if heuristic.mapping ≠ none ∧ 75/100 ≤ heuristic.confidence then
    { mapping := heuristic.mapping, confidence := heuristic.confidence
      usedLLM := false, llmCalled := false }
  else
    match fetchLLMMapping rows outcome with
    | some llmResult =>
      { mapping := llmResult.mapping
        confidence := llmResult.confidence.getD heuristic.confidence
        usedLLM := true, llmCalled := true }
    | none =>
      match heuristic.mapping with
      | some m =>
        { mapping := some m, confidence := heuristic.confidence
          usedLLM := false, llmCalled := true }
      | none => { mapping := none, confidence := 0, usedLLM := false, llmCalled := true }

/-! ## Concrete instances used by the claims -/

def C1mapping : ColumnMapping :=
  { time := "time", event := some "status", group := some "group" }

def C1rows : List KaplanRow :=
  [[("time", .num 0), ("status", .num 1), ("group", .str "A")],
   [("time", .num 5), ("status", .num 1), ("group", .str "A")],
   [("time", .num 5), ("status", .num 0), ("group", .str "A")],
   [("time", .num 10), ("status", .num 1), ("group", .str "A")]]

def C1timeline : Timeline := [(0, ⟨1, 0⟩), (5, ⟨1, 1⟩), (10, ⟨1, 0⟩)]

/-- The series the code actually produces on the C1 input. -/
def C1series : KaplanSeries :=
  { group := "A"
    steps := [⟨0, 100, some 4⟩, ⟨0, 75, some 4⟩, ⟨5, 50, some 3⟩, ⟨10, 0, some 1⟩]
    censored := [⟨5, 50⟩]
    atRiskMap := [(0, 4), (5, 3), (10, 1)] }

theorem C1_buildSeries_eval : buildSeries C1rows C1mapping = [C1series] := by
  have hdisp : buildSeries C1rows C1mapping = buildEventSeries C1rows C1mapping := by
    simp +decide [buildSeries, C1mapping, optTruthy]
  have h : groupedOf C1rows C1mapping = [("A", C1timeline)] := by decide
  have ht : orderedTimesOf C1timeline = [0, 5, 10] := by decide
  have htot : totalOf C1timeline = 4 := by decide
  rw [hdisp]
  unfold buildEventSeries
  rw [h]
  simp only [List.map]
  unfold buildGroupSeries
  rw [ht, htot]
  simp only [initialState, List.foldl]
  norm_num [processTime, amSet, tlGet, List.find?, bucketSize, C1series]

/-- C1 counterexample: on the given four rows the code produces the steps
(0,100,4), (0,75,4), (5,50,3), (10,0,1) — the time-0 event already drops
survival to 75 at time 0, so the step sequence asserted by the claim,
with (5, 75, atRisk 4) and (10, 37.5, atRisk 2), never appears. -/
theorem C1_counterexample :
    buildSeries C1rows C1mapping = [C1series]
    ∧ (⟨5, 75, some 4⟩ : Step) ∉ C1series.steps
    ∧ (⟨10, 75/2, some 2⟩ : Step) ∉ C1series.steps := by
  refine ⟨C1_buildSeries_eval, by decide, ?_⟩
  intro hmem
  have h2 : (75 : ℚ)/2 ∈ C1series.steps.map (fun st => st.survival) :=
    List.mem_map_of_mem _ hmem
  simp only [C1series, List.map_cons, List.map_nil, List.mem_cons,
    List.not_mem_nil, or_false] at h2
  norm_num at h2

/-- C1 amended: for the given rows and mapping, buildSeries returns exactly
one series, for group "A", with initial at-risk count 4, step sequence
(0,100,4), (0,75,4), (5,50,3), (10,0,1), censor mark (5,50), at-risk table
(0,4), (5,3), (10,1), and the at-risk table read past the last time point
is 1. -/
theorem C1_amended :
    buildSeries C1rows C1mapping = [C1series]
    ∧ C1series.group = "A"
    ∧ C1series.steps.head?.map (fun st => st.atRisk) = some (some 4)
    ∧ getAtRiskAtTime C1series 12 = .count 1 := by
  exact ⟨C1_buildSeries_eval, by decide, by decide, by decide⟩

/-! ## C2: monotonicity of produced series -/

def C2mapping : ColumnMapping := { time := "time", survival := some "surv" }

def C2rows : List KaplanRow :=
  [[("time", .num 1), ("surv", .num 50)],
   [("time", .num 2), ("surv", .num 90)]]

/-- The series the survival-based path produces on the C2 rows: survival
rises from 50 back to 90. -/
def C2badSeries : KaplanSeries :=
  { group := "Surv"
    steps := [⟨0, 100, none⟩, ⟨1, 50, none⟩, ⟨2, 90, none⟩]
    censored := []
    atRiskMap := [] }

/-- C2 counterexample: a survival-based series simply copies the survival
values found in the rows, so an input whose survival increases with time
yields a produced series whose step survivals are not non-increasing. -/
theorem C2_counterexample :
    buildSeries C2rows C2mapping = [C2badSeries]
    ∧ ¬ C2badSeries.steps.Chain' (fun a b => b.survival ≤ a.survival) := by
  constructor
  · decide
  · simp only [C2badSeries, List.chain'_cons, List.chain'_singleton]
    norm_num

/-! ## C3: fast-path precedence -/

/-- C3: whenever the collected keys include the exact keys time, status and
group, the heuristic returns the standardized mapping at confidence 1,
bypassing every other pattern. -/
theorem C3_fastPath (rows : List KaplanRow)
    (htime : "time" ∈ collectKeys rows)
    (hstatus : "status" ∈ collectKeys rows)
    (hgroup : "group" ∈ collectKeys rows) :
    deriveMappingHeuristically rows =
      ⟨some { time := "time", event := some "status", group := some "group" }, 1⟩ := by
  have hne : rows ≠ [] := by
    rintro rfl
    simp [collectKeys] at htime
  unfold deriveMappingHeuristically
  rw [if_neg hne, if_pos ⟨htime, hstatus, hgroup⟩]

/-- Rows exercising C3 with distractor columns: "month" matches the time
patterns and comes first, "survival" matches the survival patterns; the
fast path still wins. -/
def C3rows : List KaplanRow :=
  [[("month", .num 3), ("time", .num 1), ("status", .num 1), ("group", .str "A"),
    ("survival", .num 1)]]

theorem C3_fastPath_witness :
    deriveMappingHeuristically C3rows =
      ⟨some { time := "time", event := some "status", group := some "group" }, 1⟩ :=
  C3_fastPath C3rows (by decide) (by decide) (by decide)

/-! ## C4: the event/survival searches do not exclude the time column -/

def C4rows : List KaplanRow := [[("death_time", .num 1)]]

/-- C4 counterexample: the key "death_time" matches both the time pattern
(/time/) and the event pattern (/death/), and the event search runs over
all keys, so the returned mapping has event equal to its own time field. -/
theorem C4_counterexample :
    (deriveMappingHeuristically C4rows).mapping.map (fun m => (m.time, m.event)) =
      some ("death_time", some "death_time") := by decide

/-- C4 amended: outside the fast path, the event (resp. survival) field of
a returned heuristic mapping is exactly the first key matching the event
(resp. survival) patterns over all collected keys — the search does not
exclude the chosen time column (only group inference reserves it), so the
event field can coincide with the time field. -/
theorem C4_amended (rows : List KaplanRow) (m : ColumnMapping)
    (hfast : ¬ ("time" ∈ collectKeys rows ∧ "status" ∈ collectKeys rows ∧
      "group" ∈ collectKeys rows))
    (hm : (deriveMappingHeuristically rows).mapping = some m) :
    (m.event.isSome → m.event = heuristicEventKey rows)
    ∧ (m.survival.isSome → m.survival = heuristicSurvivalKey rows) := by
  by_cases hne : rows = []
  · subst hne
    simp [deriveMappingHeuristically] at hm
  · unfold deriveMappingHeuristically at hm
    rw [if_neg hne, if_neg hfast] at hm
    rcases htk : heuristicTimeKey rows with _ | tk
    · rw [htk] at hm
      simp at hm
    · rw [htk] at hm
      rcases hev : heuristicEventKey rows with _ | ev
      · rw [hev] at hm
        rcases hsv : heuristicSurvivalKey rows with _ | sv
        · rw [hsv] at hm
          simp at hm
        · rw [hsv] at hm
          simp only [Option.some.injEq] at hm
          subst hm
          simp
      · rw [hev] at hm
        simp only [Option.some.injEq] at hm
        subst hm
        simp

theorem C4_amended_witness :
    ((deriveMappingHeuristically C4rows).mapping = some
      { time := "death_time", event := some "death_time" })
    ∧ (some "death_time" : Option String) =
        findByPatterns (collectKeys C4rows) EVENT_PATTERNS := by
  have h := C4_amended C4rows { time := "death_time", event := some "death_time" }
    (by decide) (by decide)
  exact ⟨by decide, h.1 (by decide)⟩

/-! ## C6: at-risk lookup semantics -/

/-- A series whose at-risk map records time -1: the source's -1 sentinel
conflates with it. -/
def C6series : KaplanSeries :=
  { group := "G", steps := [⟨0, 100, some 4⟩], censored := [], atRiskMap := [(-1, 7)] }

/-- C6 counterexample: querying at 0, the largest recorded time ≤ 0 is -1
with count 7, but the code's fold can never select a key ≤ -1 (the key
collides with the "not found" sentinel), so it falls back to the first
step's at-risk value 4 instead. -/
theorem C6_counterexample :
    getAtRiskAtTime C6series 0 = .count 4
    ∧ atRiskSpecLookup C6series 0 = .count 7
    ∧ getAtRiskAtTime C6series 0 ≠ atRiskSpecLookup C6series 0 := by decide

/-- The closest-time fold of `getAtRiskAtTime` is a running maximum of the
keys that do not exceed the query time. -/
theorem amFold_eq_max (t : ℚ) (l : List (ℚ × ℤ)) (c : ℚ) :
    l.foldl (fun c p => if p.1 ≤ t ∧ c < p.1 then p.1 else c) c =
      ((l.map (fun p => p.1)).filter (fun k => k ≤ t)).foldl max c := by
  induction l generalizing c with
  | nil => rfl
  | cons p l ih =>
    simp only [List.foldl_cons, List.map_cons, List.filter_cons]
    by_cases h1 : p.1 ≤ t
    · rw [if_pos (decide_eq_true h1)]
      simp only [List.foldl_cons]
      by_cases h2 : c < p.1
      · rw [if_pos ⟨h1, h2⟩, max_eq_right h2.le]
        exact ih p.1
      · rw [if_neg (fun hh => h2 hh.2), max_eq_left (le_of_not_lt h2)]
        exact ih c
    · rw [if_neg (fun hh : p.1 ≤ t ∧ c < p.1 => h1 hh.1)]
      rw [if_neg (by simp [decide_eq_false h1])]
      exact ih c

theorem le_foldl_max (l : List ℚ) (c : ℚ) : c ≤ l.foldl max c := by
  induction l generalizing c with
  | nil => simp
  | cons x xs ih => exact le_trans (le_max_left c x) (ih (max c x))

/-- C6 amended: provided every recorded time of the at-risk map exceeds -1
(so that no key collides with the fold's -1 sentinel), the lookup agrees
with the specification reading everywhere — exact match first, then the
entry at the largest recorded time ≤ the query, then the first step's
at-risk value (dash when absent), and dash for an empty map. -/
theorem C6_amended (s : KaplanSeries) (t : ℚ)
    (hkeys : ∀ k ∈ s.atRiskMap.map (fun p => p.1), (-1 : ℚ) < k) :
    getAtRiskAtTime s t = atRiskSpecLookup s t := by
  unfold getAtRiskAtTime atRiskSpecLookup
  by_cases hemp : s.atRiskMap = []
  · rw [if_pos hemp, if_pos hemp]
  · rw [if_neg hemp, if_neg hemp]
    cases hlook : amLookup s.atRiskMap t with
    | some v => rfl
    | none =>
      simp only [amFold_eq_max]
      rcases hK : (s.atRiskMap.map (fun p => p.1)).filter (fun k => k ≤ t) with _ | ⟨x, xs⟩
      · simp [hK, List.max?]
      · have hxmem : x ∈ (s.atRiskMap.map (fun p => p.1)).filter (fun k => k ≤ t) := by
          rw [hK]; exact List.mem_cons_self x xs
        have hx : (-1 : ℚ) < x := hkeys x (List.mem_of_mem_filter hxmem)
        have hmax : (-1 : ℚ) < List.foldl max x xs :=
          lt_of_lt_of_le hx (le_foldl_max xs x)
        rw [hK]
        simp only [List.foldl_cons, max_eq_right hx.le, List.max?]
        rw [if_pos (by exact fun hh => absurd hh (by intro hh2; rw [hh2] at hmax; exact lt_irrefl _ hmax))]

def C6okSeries : KaplanSeries :=
  { group := "G", steps := [⟨0, 100, some 4⟩], censored := []
    atRiskMap := [(0, 4), (5, 3), (10, 1)] }

theorem C6_amended_witness :
    (∀ k ∈ C6okSeries.atRiskMap.map (fun p => p.1), (-1 : ℚ) < k)
    ∧ getAtRiskAtTime C6okSeries 7 = atRiskSpecLookup C6okSeries 7
    ∧ getAtRiskAtTime C6okSeries 7 = .count 3 :=
  ⟨by decide, C6_amended C6okSeries 7 (by decide), by decide⟩

/-! ## C7: confidence assignment of the heuristic -/

/-- C7: outside the fast path, with a time column found, the heuristic's
confidence is exactly 0.8 for event+group, 0.6 for event without group,
0.7 for survival+group, 0.5 for survival without group, and the result is
the terminal null mapping at confidence 0 when neither an event- nor a
survival-pattern column exists. -/
theorem C7_confidenceTable (rows : List KaplanRow) (tk : String)
    (hne : rows ≠ [])
    (hfast : ¬ ("time" ∈ collectKeys rows ∧ "status" ∈ collectKeys rows ∧
      "group" ∈ collectKeys rows))
    (htk : heuristicTimeKey rows = some tk) :
    ((heuristicEventKey rows).isSome → (heuristicGroupKey rows).isSome →
      (deriveMappingHeuristically rows).confidence = 8/10)
    ∧ ((heuristicEventKey rows).isSome → heuristicGroupKey rows = none →
      (deriveMappingHeuristically rows).confidence = 6/10)
    ∧ (heuristicEventKey rows = none → (heuristicSurvivalKey rows).isSome →
      (heuristicGroupKey rows).isSome →
      (deriveMappingHeuristically rows).confidence = 7/10)
    ∧ (heuristicEventKey rows = none → (heuristicSurvivalKey rows).isSome →
      heuristicGroupKey rows = none →
      (deriveMappingHeuristically rows).confidence = 5/10)
    ∧ (heuristicEventKey rows = none → heuristicSurvivalKey rows = none →
      deriveMappingHeuristically rows = ⟨none, 0⟩) := by
  have hg : heuristicGroupKey rows =
      inferGroupColumn rows (collectKeys rows) (heuristicReserved rows tk) := by
    unfold heuristicGroupKey
    rw [htk]
  unfold deriveMappingHeuristically
  rw [if_neg hne, if_neg hfast, htk]
  rcases hev : heuristicEventKey rows with _ | ev
  · rcases hsv : heuristicSurvivalKey rows with _ | sv
    · simp [hev, hsv]
    · refine ⟨by simp, by simp, ?_, ?_, by simp [hsv]⟩
      · intro _ _ hgs
        rw [hg] at hgs
        rcases Option.isSome_iff_exists.mp hgs with ⟨g, hgg⟩
        simp [hev, hsv, hgg]
      · intro _ _ hgn
        rw [hg] at hgn
        simp [hev, hsv, hgn]
  · refine ⟨?_, ?_, by simp [hev], by simp [hev], by simp [hev]⟩
    · intro _ hgs
      rw [hg] at hgs
      simp [hev]
      rcases Option.isSome_iff_exists.mp hgs with ⟨g, hgg⟩
      simp [hgg]
    · intro _ hgn
      rw [hg] at hgn
      simp [hev, hgn]

def C7rows : List KaplanRow := [[("month", .num 1), ("status", .num 1)]]

theorem C7_confidenceTable_witness :
    heuristicTimeKey C7rows = some "month"
    ∧ (heuristicEventKey C7rows).isSome
    ∧ heuristicGroupKey C7rows = none
    ∧ (deriveMappingHeuristically C7rows).confidence = 6/10 :=
  ⟨by decide, by decide, by decide,
    (C7_confidenceTable C7rows "month" (by decide) (by decide) (by decide)).2.1
      (by decide) (by decide)⟩

/-! ## C8: resolution orchestration and collaborator error handling -/

/-- C8: a non-null heuristic mapping at confidence ≥ 0.75 is committed
without invoking the collaborator; otherwise the collaborator is called on
a sample of at most the first 25 rows; any collaborator payload with a
non-null mapping is committed as LLM-sourced regardless of its confidence;
and every collaborator failure falls back to the heuristic mapping when it
exists, or to the null/0 terminal state — never to an error (the model is
total over all fetch outcomes). -/
theorem C8_resolution (rows : List KaplanRow) (o : FetchOutcome) :
    ((deriveMappingHeuristically rows).mapping ≠ none →
      75/100 ≤ (deriveMappingHeuristically rows).confidence →
      resolveMapping rows o =
        ⟨(deriveMappingHeuristically rows).mapping,
          (deriveMappingHeuristically rows).confidence, false, false⟩)
    ∧ (¬ ((deriveMappingHeuristically rows).mapping ≠ none ∧
        75/100 ≤ (deriveMappingHeuristically rows).confidence) →
      (resolveMapping rows o).llmCalled = true)
    ∧ (llmRequestRows rows = rows.take 25 ∧ (llmRequestRows rows).length ≤ 25)
    ∧ (∀ p, fetchLLMMapping rows o = some p →
      ¬ ((deriveMappingHeuristically rows).mapping ≠ none ∧
        75/100 ≤ (deriveMappingHeuristically rows).confidence) →
      resolveMapping rows o =
        ⟨p.mapping, p.confidence.getD (deriveMappingHeuristically rows).confidence,
          true, true⟩)
    ∧ (fetchLLMMapping rows o = none →
      ¬ ((deriveMappingHeuristically rows).mapping ≠ none ∧
        75/100 ≤ (deriveMappingHeuristically rows).confidence) →
      (((deriveMappingHeuristically rows).mapping ≠ none →
        resolveMapping rows o =
          ⟨(deriveMappingHeuristically rows).mapping,
            (deriveMappingHeuristically rows).confidence, false, true⟩)
      ∧ ((deriveMappingHeuristically rows).mapping = none →
        resolveMapping rows o = ⟨none, 0, false, true⟩))) := by
  refine ⟨?_, ?_, ⟨rfl, ?_⟩, ?_, ?_⟩
  · intro hm hc
    unfold resolveMapping
    rw [if_pos ⟨hm, hc⟩]
  · intro hno
    unfold resolveMapping
    rw [if_neg hno]
    cases hf : fetchLLMMapping rows o with
    | some p => rfl
    | none =>
      cases hm : (deriveMappingHeuristically rows).mapping with
      | some m => rfl
      | none => rfl
  · simpa [llmRequestRows] using List.length_take_le 25 rows
  · intro p hp hno
    unfold resolveMapping
    rw [if_neg hno, hp]
  · intro hf hno
    constructor
    · intro hm
      rcases hmm : (deriveMappingHeuristically rows).mapping with _ | m
      · exact absurd hmm hm
      · unfold resolveMapping
        rw [if_neg hno, hf, hmm]
    · intro hm
      unfold resolveMapping
      rw [if_neg hno, hf, hm]

theorem C8_resolution_witness :
    resolveMapping C7rows .badStatus =
      ⟨some { time := "month", event := some "status" }, 6/10, false, true⟩ := by
  have hno : ¬ ((deriveMappingHeuristically C7rows).mapping ≠ none ∧
      75/100 ≤ (deriveMappingHeuristically C7rows).confidence) := by
    rintro ⟨-, hc⟩
    have hconf : (deriveMappingHeuristically C7rows).confidence = 6/10 := rfl
    rw [hconf] at hc
    norm_num at hc
  have h := ((C8_resolution C7rows .badStatus).2.2.2.2 rfl hno).1 (by decide)
  rw [h]
  rfl

/-! ## C10: time-only mapping falls back to event-based construction -/

theorem groupedAdd_ne_nil (acc : List (String × Timeline)) (g : String) (t : ℚ)
    (e : Bool) : groupedAdd acc g t e ≠ [] := by
  cases acc with
  | nil => simp [groupedAdd]
  | cons p rest =>
    simp only [groupedAdd]
    split <;> simp

theorem groupedFold_ne_nil (m : ColumnMapping) (l : List KaplanRow)
    (acc : List (String × Timeline)) (hacc : acc ≠ []) :
    l.foldl (fun acc row =>
      match classifyRow m row with
      | none => acc
      | some (t, g, isEvent) => groupedAdd acc g t isEvent) acc ≠ [] := by
  induction l generalizing acc with
  | nil => exact hacc
  | cons r rest ih =>
    simp only [List.foldl_cons]
    cases hc : classifyRow m r with
    | none => exact ih acc hacc
    | some v => exact ih _ (groupedAdd_ne_nil acc v.2.1 v.1 v.2.2)

theorem groupedOf_ne_nil (m : ColumnMapping) (rows : List KaplanRow)
    (row : KaplanRow) (hrow : row ∈ rows) (hc : (classifyRow m row).isSome) :
    groupedOf rows m ≠ [] := by
  unfold groupedOf
  induction rows generalizing row with
  | nil => cases hrow
  | cons r rest ih =>
    simp only [List.foldl_cons]
    rcases List.mem_cons.mp hrow with rfl | hmem
    · rcases Option.isSome_iff_exists.mp hc with ⟨v, hv⟩
      rw [hv]
      exact groupedFold_ne_nil m rest _ (groupedAdd_ne_nil [] v.2.1 v.1 v.2.2)
    · cases hcr : classifyRow m r with
      | none => exact ih row hmem hc
      | some v => exact groupedFold_ne_nil m rest _ (groupedAdd_ne_nil [] v.2.1 v.1 v.2.2)

theorem classifyRow_isSome (m : ColumnMapping) (row : KaplanRow) :
    (classifyRow m row).isSome = (parseNumber (getValue row m.time)).isSome := by
  unfold classifyRow
  cases parseNumber (getValue row m.time) <;> rfl

/-- With no event column mapped, a classified row's event flag reduces to
the negated censor-flag lookup (default: event). -/
theorem classifyRow_noEventKey (m : ColumnMapping) (row : KaplanRow) (q : ℚ)
    (hev : m.event = none)
    (hpt : parseNumber (getValue row m.time) = some q) :
    ∃ g, classifyRow m row = some (q, g,
      !((parseBoolean (if optTruthy m.censored then getValueOpt row m.censored
        else censorFallback row)).getD false)) := by
  unfold classifyRow
  rw [hpt, hev]
  exact ⟨_, rfl⟩

/-- C10: with a non-empty time key and neither event nor survival mapped,
buildSeries falls through to event-based construction; any row whose time
parses forces a non-empty series list; and each grouped row counts as an
event exactly when no censoring flag in the row evaluates to true. -/
theorem C10_timeOnlyFallback (rows : List KaplanRow) (m : ColumnMapping)
    (htime : m.time ≠ "") (hev : m.event = none) (hsv : m.survival = none) :
    buildSeries rows m = buildEventSeries rows m
    ∧ (∀ row ∈ rows, (parseNumber (getValue row m.time)).isSome →
        buildSeries rows m ≠ [])
    ∧ (∀ row ∈ rows, ∀ t g e, classifyRow m row = some (t, g, e) →
        (e = true ↔
          ¬ parseBoolean (if optTruthy m.censored then getValueOpt row m.censored
            else censorFallback row) = some true)) := by
  have hdisp : buildSeries rows m = buildEventSeries rows m := by
    unfold buildSeries
    rw [if_neg htime, if_neg (by simp [hev, optTruthy]), if_neg (by simp [hsv, optTruthy])]
  refine ⟨hdisp, ?_, ?_⟩
  · intro row hrow hp
    rw [hdisp]
    unfold buildEventSeries
    have hg : groupedOf rows m ≠ [] :=
      groupedOf_ne_nil m rows row hrow (by rw [classifyRow_isSome]; exact hp)
    simpa using hg
  · intro row hrow t g e hc
    rcases hpt : parseNumber (getValue row m.time) with _ | q
    · have hnone : classifyRow m row = none := by
        unfold classifyRow
        rw [hpt]
      rw [hnone] at hc
      cases hc
    · obtain ⟨g', hform⟩ := classifyRow_noEventKey m row q hev hpt
      rw [hform] at hc
      simp only [Option.some.injEq, Prod.mk.injEq] at hc
      obtain ⟨-, -, he⟩ := hc
      rw [← he]
      cases hpb : parseBoolean (if optTruthy m.censored then getValueOpt row m.censored
          else censorFallback row) with
      | none => simp
      | some b => cases b <;> simp

def C10rows : List KaplanRow := [[("t", .num 3)]]

def C10mapping : ColumnMapping := { time := "t" }

theorem C10_timeOnlyFallback_witness :
    buildSeries C10rows C10mapping = buildEventSeries C10rows C10mapping
    ∧ buildSeries C10rows C10mapping ≠ [] := by
  have h := C10_timeOnlyFallback C10rows C10mapping (by decide) rfl rfl
  exact ⟨h.1, h.2.1 [("t", .num 3)] (by decide) (by decide)⟩

/-! ## C5: censored-only buckets preserve survival -/

/-- C5: processing a time bucket with zero events, at least one censored
subject and a positive at-risk count leaves survival unchanged — the
emitted step carries the previous step's survival — emits one censored
point per censored subject at that height, and decrements the running
at-risk count by the censored count. -/
theorem C5_censoredOnlyBucket (tl : Timeline) (s : BuildState) (t : ℚ) (b : Bucket)
    (hb : tlGet tl t = some b) (hev : b.events = 0) (hcen : 0 < b.censored)
    (hat : 0 < s.atRisk)
    (hlast : s.steps.getLast?.map (fun st => st.survival) = some s.survival) :
    (processTime tl s t).survival = s.survival
    ∧ (processTime tl s t).steps = s.steps ++ [⟨t, s.survival, some s.atRisk⟩]
    ∧ (∀ prev, s.steps.getLast? = some prev →
        (processTime tl s t).steps.getLast? = some ⟨t, prev.survival, some s.atRisk⟩)
    ∧ (processTime tl s t).censoredPoints =
        s.censoredPoints ++ List.replicate b.censored ⟨t, s.survival⟩
    ∧ (processTime tl s t).atRisk = s.atRisk - b.censored := by
  have hng : ¬ s.atRisk ≤ 0 := not_le.mpr hat
  have hcomp : processTime tl s t =
      { atRisk := s.atRisk - (b.censored : ℤ)
        survival := s.survival
        steps := s.steps ++ [⟨t, s.survival, some s.atRisk⟩]
        censoredPoints := s.censoredPoints ++ List.replicate b.censored ⟨t, s.survival⟩
        atRiskMap := amSet s.atRiskMap t s.atRisk } := by
    simp only [processTime, hb, Option.getD_some, hev]
    rw [if_neg hng, if_neg (lt_irrefl 0)]
    simp
  rw [hcomp]
  refine ⟨rfl, rfl, ?_, rfl, rfl⟩
  intro prev hprev
  rw [hprev] at hlast
  simp only [Option.map_some', Option.some.injEq] at hlast
  rw [List.getLast?_append]
  simp [hlast]

def C5state : BuildState :=
  { atRisk := 4, survival := 75, steps := [⟨0, 100, some 4⟩, ⟨1, 75, some 4⟩]
    censoredPoints := [], atRiskMap := [(0, 4), (1, 4)] }

def C5timeline : Timeline := [(0, ⟨1, 0⟩), (1, ⟨1, 0⟩), (2, ⟨0, 2⟩)]

theorem C5_censoredOnlyBucket_witness :
    (processTime C5timeline C5state 2).survival = 75
    ∧ (processTime C5timeline C5state 2).censoredPoints = [⟨2, 75⟩, ⟨2, 75⟩]
    ∧ (processTime C5timeline C5state 2).atRisk = 2 := by
  have h := C5_censoredOnlyBucket C5timeline C5state 2 ⟨0, 2⟩ (by decide) rfl
    (by decide) (by decide) (by decide)
  refine ⟨?_, ?_, ?_⟩
  · rw [h.1]
    rfl
  · rw [h.2.2.2.1]
    rfl
  · rw [h.2.2.2.2]
    rfl

/-! ## C2 amended: sorting and accounting lemmas for the event builder -/

theorem sInsert_perm {α : Type} (lt : α → α → Bool) (x : α) (l : List α) :
    (sInsert lt x l).Perm (x :: l) := by
  induction l with
  | nil => exact List.Perm.refl _
  | cons y ys ih =>
    simp only [sInsert]
    by_cases h : lt y x
    · rw [if_pos h]
      exact (ih.cons y).trans (List.Perm.swap x y ys)
    · rw [if_neg h]

theorem sSort_perm {α : Type} (lt : α → α → Bool) (l : List α) :
    (sSort lt l).Perm l := by
  induction l with
  | nil => exact List.Perm.refl _
  | cons x xs ih =>
    simp only [sSort]
    exact (sInsert_perm lt x (sSort lt xs)).trans (ih.cons x)

theorem sInsert_sorted (x : ℚ) (l : List ℚ) (h : l.Pairwise (· ≤ ·)) :
    (sInsert (fun a b => decide (a < b)) x l).Pairwise (· ≤ ·) := by
  induction l with
  | nil => simp [sInsert]
  | cons y ys ih =>
    rcases List.pairwise_cons.mp h with ⟨hy, hys⟩
    simp only [sInsert]
    by_cases hlt : y < x
    · rw [if_pos (decide_eq_true hlt)]
      refine List.pairwise_cons.mpr ⟨?_, ih hys⟩
      intro z hz
      have hz2 := (sInsert_perm (fun a b => decide (a < b)) x ys).mem_iff.mp hz
      rcases List.mem_cons.mp hz2 with rfl | hmem
      · exact hlt.le
      · exact hy z hmem
    · rw [if_neg (by simp [decide_eq_false hlt])]
      refine List.pairwise_cons.mpr ⟨?_, h⟩
      intro z hz
      rcases List.mem_cons.mp hz with rfl | hmem
      · exact le_of_not_lt hlt
      · exact le_trans (le_of_not_lt hlt) (hy z hmem)

theorem sSort_sorted (l : List ℚ) :
    (sSort (fun a b => decide (a < b)) l).Pairwise (· ≤ ·) := by
  induction l with
  | nil => simp [sSort]
  | cons x xs ih => exact sInsert_sorted x _ ih

theorem orderedTimesOf_sorted (tl : Timeline) :
    (orderedTimesOf tl).Pairwise (· ≤ ·) := sSort_sorted _

theorem orderedTimesOf_perm (tl : Timeline) :
    (orderedTimesOf tl).Perm (tl.map Prod.fst) := sSort_perm _ _

theorem tlAdd_keys (tl : Timeline) (t : ℚ) (e : Bool) :
    (tlAdd tl t e).map Prod.fst =
      if t ∈ tl.map Prod.fst then tl.map Prod.fst else tl.map Prod.fst ++ [t] := by
  induction tl with
  | nil => simp [tlAdd]
  | cons p rest ih =>
    obtain ⟨t', b⟩ := p
    simp only [tlAdd]
    by_cases h : t' = t
    · rw [if_pos h]
      simp [h]
    · rw [if_neg h]
      simp only [List.map_cons, ih]
      by_cases hmem : t ∈ rest.map Prod.fst
      · rw [if_pos hmem,
          if_pos (show t ∈ t' :: rest.map Prod.fst from List.mem_cons_of_mem _ hmem)]
      · rw [if_neg hmem, if_neg (show t ∉ t' :: rest.map Prod.fst from by
          intro hc
          rcases List.mem_cons.mp hc with hc1 | hc2
          · exact h hc1.symm
          · exact hmem hc2)]
        simp

theorem tlAdd_nodup (tl : Timeline) (t : ℚ) (e : Bool)
    (h : (tl.map Prod.fst).Nodup) : ((tlAdd tl t e).map Prod.fst).Nodup := by
  rw [tlAdd_keys]
  by_cases hmem : t ∈ tl.map Prod.fst
  · rwa [if_pos hmem]
  · rw [if_neg hmem]
    simp [List.nodup_append, h, hmem]

theorem tlAdd_keys_subset (tl : Timeline) (t : ℚ) (e : Bool) (k : ℚ)
    (hk : k ∈ (tlAdd tl t e).map Prod.fst) : k ∈ tl.map Prod.fst ∨ k = t := by
  rw [tlAdd_keys] at hk
  by_cases hmem : t ∈ tl.map Prod.fst
  · rw [if_pos hmem] at hk
    exact Or.inl hk
  · rw [if_neg hmem] at hk
    rcases List.mem_append.mp hk with h1 | h2
    · exact Or.inl h1
    · exact Or.inr (List.mem_singleton.mp h2)

theorem mem_groupedAdd (acc : List (String × Timeline)) (g : String) (t : ℚ)
    (e : Bool) (p : String × Timeline) (hp : p ∈ groupedAdd acc g t e) :
    p ∈ acc ∨ (∃ tl0, (p.1, tl0) ∈ acc ∧ p.2 = tlAdd tl0 t e)
      ∨ p = (g, tlAdd [] t e) := by
  induction acc with
  | nil =>
    simp only [groupedAdd, List.mem_singleton] at hp
    exact Or.inr (Or.inr hp)
  | cons q rest ih =>
    obtain ⟨g', tl⟩ := q
    simp only [groupedAdd] at hp
    by_cases h : g' = g
    · rw [if_pos h] at hp
      rcases List.mem_cons.mp hp with rfl | hmem
      · exact Or.inr (Or.inl ⟨tl, List.mem_cons_self _ _, rfl⟩)
      · exact Or.inl (List.mem_cons_of_mem _ hmem)
    · rw [if_neg h] at hp
      rcases List.mem_cons.mp hp with rfl | hmem
      · exact Or.inl (List.mem_cons_self _ _)
      · rcases ih hmem with h1 | ⟨tl0, hm0, he0⟩ | h3
        · exact Or.inl (List.mem_cons_of_mem _ h1)
        · exact Or.inr (Or.inl ⟨tl0, List.mem_cons_of_mem _ hm0, he0⟩)
        · exact Or.inr (Or.inr h3)

/-- Invariant propagation through the grouping fold of buildEventSeries. -/
theorem groupedFold_prop (m : ColumnMapping) (P : Timeline → Prop) (hnil : P []) :
    ∀ (l : List KaplanRow),
      (∀ tl row t g e, row ∈ l → classifyRow m row = some (t, g, e) →
        P tl → P (tlAdd tl t e)) →
      ∀ acc, (∀ p ∈ acc, P p.2) →
        ∀ p ∈ l.foldl (fun acc row =>
          match classifyRow m row with
          | none => acc
          | some (t, g, isEvent) => groupedAdd acc g t isEvent) acc, P p.2 := by
  intro l
  induction l with
  | nil =>
    intro _ acc hacc p hp
    exact hacc p hp
  | cons r rest ih =>
    intro hadd acc hacc p hp
    simp only [List.foldl_cons] at hp
    have hadd2 : ∀ tl row t g e, row ∈ rest → classifyRow m row = some (t, g, e) →
        P tl → P (tlAdd tl t e) :=
      fun tl row t g e hr => hadd tl row t g e (List.mem_cons_of_mem _ hr)
    cases hcr : classifyRow m r with
    | none =>
      rw [hcr] at hp
      exact ih hadd2 acc hacc p hp
    | some v =>
      obtain ⟨t, g, e⟩ := v
      rw [hcr] at hp
      refine ih hadd2 _ ?_ p hp
      intro q hq
      rcases mem_groupedAdd acc g t e q hq with h1 | ⟨tl0, hm0, he0⟩ | h3
      · exact hacc q h1
      · rw [he0]
        exact hadd tl0 r t g e (List.mem_cons_self _ _) hcr (hacc (q.1, tl0) hm0)
      · rw [h3]
        exact hadd [] r t g e (List.mem_cons_self _ _) hcr hnil

theorem groupedOf_prop (m : ColumnMapping) (rows : List KaplanRow)
    (P : Timeline → Prop) (hnil : P [])
    (hadd : ∀ tl row t g e, row ∈ rows → classifyRow m row = some (t, g, e) →
      P tl → P (tlAdd tl t e)) :
    ∀ p ∈ groupedOf rows m, P p.2 :=
  groupedFold_prop m P hnil rows hadd [] (by simp)

theorem classifyRow_time (m : ColumnMapping) (row : KaplanRow) (t : ℚ) (g : String)
    (e : Bool) (h : classifyRow m row = some (t, g, e)) :
    parseNumber (getValue row m.time) = some t := by
  unfold classifyRow at h
  cases hpt : parseNumber (getValue row m.time) with
  | none =>
    rw [hpt] at h
    cases h
  | some q =>
    rw [hpt] at h
    simp only [Option.some.injEq, Prod.mk.injEq] at h
    rw [h.1]

/-! ## Size accounting -/

def sumSizes (tl : Timeline) (ts : List ℚ) : ℕ :=
  (ts.map (fun t => bucketSize ((tlGet tl t).getD ⟨0, 0⟩))).sum

theorem sumSizes_cons (tl : Timeline) (t : ℚ) (ts : List ℚ) :
    sumSizes tl (t :: ts) = bucketSize ((tlGet tl t).getD ⟨0, 0⟩) + sumSizes tl ts := by
  simp [sumSizes]

theorem sumSizes_perm (tl : Timeline) {ts ts' : List ℚ} (h : ts.Perm ts') :
    sumSizes tl ts = sumSizes tl ts' := (h.map _).sum_eq

theorem sumSizes_keys (tl : Timeline) (hnd : (tl.map Prod.fst).Nodup) :
    sumSizes tl (tl.map Prod.fst) = totalOf tl := by
  induction tl with
  | nil => rfl
  | cons p rest ih =>
    obtain ⟨t, b⟩ := p
    simp only [List.map_cons, List.nodup_cons] at hnd
    simp only [List.map_cons]
    rw [sumSizes_cons]
    have hhead : tlGet ((t, b) :: rest) t = some b := by
      simp [tlGet, List.find?]
    have htail : sumSizes ((t, b) :: rest) (rest.map Prod.fst) =
        sumSizes rest (rest.map Prod.fst) := by
      unfold sumSizes
      refine congrArg List.sum (List.map_congr_left ?_)
      intro k hk
      have hkt : ¬ (t = k) := fun hh => hnd.1 (hh ▸ hk)
      simp [tlGet, List.find?, hkt]
    rw [hhead, htail, ih hnd.2]
    simp [totalOf]

theorem totalOf_eq_sumSizes_ordered (tl : Timeline)
    (hnd : (tl.map Prod.fst).Nodup) :
    (totalOf tl : ℤ) = (sumSizes tl (orderedTimesOf tl) : ℤ) := by
  rw [sumSizes_perm tl (orderedTimesOf_perm tl), sumSizes_keys tl hnd]

/-- Invariant of the survival fold: over a sorted list of times whose
bucket sizes sum to the running at-risk count, the step sequence stays
sorted in time, non-increasing in survival, and keeps its head. -/
theorem processFold_mono (tl : Timeline) :
    ∀ (ts : List ℚ) (s : BuildState),
      ts.Pairwise (· ≤ ·) →
      s.atRisk = (sumSizes tl ts : ℤ) →
      0 ≤ s.survival →
      s.steps.getLast?.map (fun st => st.survival) = some s.survival →
      s.steps.Chain' (fun a b => a.time ≤ b.time) →
      s.steps.Chain' (fun a b => b.survival ≤ a.survival) →
      (∀ st ∈ s.steps, ∀ u ∈ ts, st.time ≤ u) →
      (ts.foldl (processTime tl) s).steps.Chain' (fun a b => a.time ≤ b.time)
       ∧ (ts.foldl (processTime tl) s).steps.Chain' (fun a b => b.survival ≤ a.survival)
       ∧ (ts.foldl (processTime tl) s).steps.head? = s.steps.head? := by
  intro ts
  induction ts with
  | nil =>
    intro s _ _ _ _ htime hsurv _
    exact ⟨htime, hsurv, rfl⟩
  | cons t ts ih =>
    intro s hsort hAt hnn hlast htime hsurv hall
    simp only [List.foldl_cons]
    rcases List.pairwise_cons.mp hsort with ⟨hthead, hsort2⟩
    rw [sumSizes_cons] at hAt
    by_cases hat : s.atRisk ≤ 0
    · have hps : processTime tl s t = { s with atRiskMap := amSet s.atRiskMap t s.atRisk } := by
        simp only [processTime]
        rw [if_pos hat]
      rw [hps]
      have hz : s.atRisk = (sumSizes tl ts : ℤ) := by
        push_cast at hAt
        omega
      exact ih _ hsort2 hz hnn hlast htime hsurv
        (fun st hst u hu => hall st hst u (List.mem_cons_of_mem _ hu))
    · have hat2 : 0 < s.atRisk := not_le.mp hat
      have hsurvval : (processTime tl s t).survival =
          (if 0 < ((tlGet tl t).getD ⟨0, 0⟩).events then
            s.survival * (((s.atRisk : ℚ) - (((tlGet tl t).getD ⟨0, 0⟩).events : ℚ)) /
              (s.atRisk : ℚ))
          else s.survival) := by
        simp only [processTime]
        rw [if_neg hat]
      have hsteps : (processTime tl s t).steps = s.steps ++
          [⟨t, (processTime tl s t).survival, some s.atRisk⟩] := by
        simp only [processTime]
        rw [if_neg hat]
      have hatr : (processTime tl s t).atRisk = s.atRisk -
          (((tlGet tl t).getD ⟨0, 0⟩).events + ((tlGet tl t).getD ⟨0, 0⟩).censored) := by
        simp only [processTime]
        rw [if_neg hat]
      have hqpos : (0 : ℚ) < (s.atRisk : ℚ) := by exact_mod_cast hat2
      have hbat : (bucketSize ((tlGet tl t).getD ⟨0, 0⟩) : ℤ) ≤ s.atRisk := by
        rw [hAt]
        push_cast
        omega
      have hevle : ((((tlGet tl t).getD ⟨0, 0⟩).events : ℚ)) ≤ (s.atRisk : ℚ) := by
        have hz : ((((tlGet tl t).getD ⟨0, 0⟩).events : ℤ)) ≤ s.atRisk := by
          refine le_trans ?_ hbat
          unfold bucketSize
          push_cast
          omega
        exact_mod_cast hz
      have hnewnn : 0 ≤ (processTime tl s t).survival := by
        rw [hsurvval]
        by_cases hev : 0 < ((tlGet tl t).getD ⟨0, 0⟩).events
        · rw [if_pos hev]
          exact mul_nonneg hnn (div_nonneg (by linarith) hqpos.le)
        · rw [if_neg hev]
          exact hnn
      have hnewle : (processTime tl s t).survival ≤ s.survival := by
        rw [hsurvval]
        by_cases hev : 0 < ((tlGet tl t).getD ⟨0, 0⟩).events
        · rw [if_pos hev]
          refine mul_le_of_le_one_right hnn ?_
          rw [div_le_one hqpos]
          have hnn2 : (0 : ℚ) ≤ (((tlGet tl t).getD ⟨0, 0⟩).events : ℚ) := by positivity
          linarith
        · rw [if_neg hev]
      have hne : s.steps ≠ [] := by
        cases hgl : s.steps.getLast? with
        | none =>
          rw [hgl] at hlast
          cases hlast
        | some pr =>
          rw [← List.getLast?_isSome, hgl]
          rfl
      have hprsurv : ∀ pr, s.steps.getLast? = some pr → pr.survival = s.survival := by
        intro pr hpr
        rw [hpr] at hlast
        simp only [Option.map_some', Option.some.injEq] at hlast
        exact hlast
      have hAt2 : (processTime tl s t).atRisk = (sumSizes tl ts : ℤ) := by
        rw [hatr, hAt]
        unfold bucketSize
        push_cast
        ring
      have hlast2 : (processTime tl s t).steps.getLast?.map (fun st => st.survival) =
          some (processTime tl s t).survival := by
        rw [hsteps, List.getLast?_append]
        rfl
      have htime2 : (processTime tl s t).steps.Chain' (fun a b => a.time ≤ b.time) := by
        rw [hsteps, List.chain'_append]
        refine ⟨htime, List.chain'_singleton _, ?_⟩
        intro a ha y hy
        simp only [List.head?_cons, Option.mem_def, Option.some.injEq] at hy
        subst hy
        exact hall a (List.mem_of_mem_getLast? ha) t (List.mem_cons_self _ _)
      have hsurv2 : (processTime tl s t).steps.Chain' (fun a b => b.survival ≤ a.survival) := by
        rw [hsteps, List.chain'_append]
        refine ⟨hsurv, List.chain'_singleton _, ?_⟩
        intro a ha y hy
        simp only [List.head?_cons, Option.mem_def, Option.some.injEq] at hy
        subst hy
        have hpr := hprsurv a ha
        simpa [hpr] using hnewle
      have hall2 : ∀ st ∈ (processTime tl s t).steps, ∀ u ∈ ts, st.time ≤ u := by
        intro st hst u hu
        rw [hsteps] at hst
        rcases List.mem_append.mp hst with h1 | h2
        · exact hall st h1 u (List.mem_cons_of_mem _ hu)
        · rw [List.mem_singleton.mp h2]
          exact hthead u hu
      obtain ⟨hc1, hc2, hc3⟩ :=
        ih (processTime tl s t) hsort2 hAt2 hnewnn hlast2 htime2 hsurv2 hall2
      refine ⟨hc1, hc2, ?_⟩
      rw [hc3, hsteps, List.head?_append]
      cases hh : s.steps.head? with
      | none =>
        rw [List.head?_eq_none_iff] at hh
        exact absurd hh hne
      | some h0 => rfl

theorem buildGroupSeries_props (g : String) (tl : Timeline)
    (hnd : (tl.map Prod.fst).Nodup)
    (hpos : ∀ k ∈ tl.map Prod.fst, (0 : ℚ) ≤ k) :
    (buildGroupSeries g tl).steps.Chain' (fun a b => a.time ≤ b.time)
    ∧ (buildGroupSeries g tl).steps.Chain' (fun a b => b.survival ≤ a.survival)
    ∧ (buildGroupSeries g tl).steps.head?.map (fun st => (st.time, st.survival)) =
        some (0, 100) := by
  have h := processFold_mono tl (orderedTimesOf tl) (initialState (totalOf tl))
    (orderedTimesOf_sorted tl)
    (by
      show ((totalOf tl : ℤ)) = (sumSizes tl (orderedTimesOf tl) : ℤ)
      exact totalOf_eq_sumSizes_ordered tl hnd)
    (by norm_num [initialState])
    (by simp [initialState])
    (by simp [initialState])
    (by simp [initialState])
    (by
      intro st hst u hu
      simp only [initialState, List.mem_singleton] at hst
      rw [hst]
      exact hpos u ((orderedTimesOf_perm tl).subset hu))
  obtain ⟨h1, h2, h3⟩ := h
  refine ⟨h1, h2, ?_⟩
  have hh : (buildGroupSeries g tl).steps.head? = some ⟨0, 100, some (totalOf tl)⟩ := by
    show (List.foldl (processTime tl) (initialState (totalOf tl))
      (orderedTimesOf tl)).steps.head? = _
    rw [h3]
    rfl
  rw [hh]
  rfl

/-- C2 amended: every series produced by buildSeries through event-based
construction (a truthy event field, or no truthy survival field), from
rows whose parsed times are nonnegative, has a step sequence
non-decreasing in time, non-increasing in survival, and beginning with
exactly (0, 100). -/
theorem C2_amended (rows : List KaplanRow) (m : ColumnMapping)
    (hpath : optTruthy m.event = true ∨ optTruthy m.survival = false)
    (htimes : ∀ row ∈ rows, ∀ q : ℚ,
      parseNumber (getValue row m.time) = some q → 0 ≤ q)
    (s : KaplanSeries) (hs : s ∈ buildSeries rows m) :
    s.steps.Chain' (fun a b => a.time ≤ b.time)
    ∧ s.steps.Chain' (fun a b => b.survival ≤ a.survival)
    ∧ s.steps.head?.map (fun st => (st.time, st.survival)) = some (0, 100) := by
  have hs2 : s ∈ buildEventSeries rows m := by
    unfold buildSeries at hs
    by_cases ht : m.time = ""
    · rw [if_pos ht] at hs
      cases hs
    · rw [if_neg ht] at hs
      rcases hpath with hp | hp
      · rwa [if_pos hp] at hs
      · by_cases hev : optTruthy m.event = true
        · rwa [if_pos hev] at hs
        · rw [if_neg hev, if_neg (by simp [hp])] at hs
          exact hs
  unfold buildEventSeries at hs2
  rcases List.mem_map.mp hs2 with ⟨p, hpmem, rfl⟩
  have hnd : (p.2.map Prod.fst).Nodup :=
    groupedOf_prop m rows (fun tl => (tl.map Prod.fst).Nodup) (by simp)
      (fun tl row t g e _ _ hP => tlAdd_nodup tl t e hP) p hpmem
  have hpos : ∀ k ∈ p.2.map Prod.fst, (0 : ℚ) ≤ k :=
    groupedOf_prop m rows (fun tl => ∀ k ∈ tl.map Prod.fst, (0 : ℚ) ≤ k) (by simp)
      (fun tl row t g e hrow hcl hP => by
        intro k hk
        rcases tlAdd_keys_subset tl t e k hk with h1 | h2
        · exact hP k h1
        · rw [h2]
          exact htimes row hrow t (classifyRow_time m row t g e hcl)) p hpmem
  exact buildGroupSeries_props p.1 p.2 hnd hpos

def C2wRows : List KaplanRow := [[("t", .num 2)]]

def C2wMapping : ColumnMapping := { time := "t" }

def C2wSeries : KaplanSeries :=
  { group := "Group", steps := [⟨0, 100, some 1⟩, ⟨2, 0, some 1⟩]
    censored := [], atRiskMap := [(0, 1), (2, 1)] }

theorem C2_amended_witness :
    buildSeries C2wRows C2wMapping = [C2wSeries]
    ∧ C2wSeries.steps.Chain' (fun a b => a.time ≤ b.time)
    ∧ C2wSeries.steps.Chain' (fun a b => b.survival ≤ a.survival)
    ∧ C2wSeries.steps.head?.map (fun st => (st.time, st.survival)) = some (0, 100) := by
  have heval : buildSeries C2wRows C2wMapping = [C2wSeries] := by
    have hdisp : buildSeries C2wRows C2wMapping = buildEventSeries C2wRows C2wMapping := by
      simp +decide [buildSeries, C2wMapping, optTruthy]
    have hgr : groupedOf C2wRows C2wMapping = [("Group", [(2, ⟨1, 0⟩)])] := by decide
    have hts : orderedTimesOf [(2, (⟨1, 0⟩ : Bucket))] = [2] := by decide
    have htot : totalOf [(2, (⟨1, 0⟩ : Bucket))] = 1 := by decide
    rw [hdisp]
    unfold buildEventSeries
    rw [hgr]
    simp only [List.map]
    unfold buildGroupSeries
    rw [hts, htot]
    simp only [initialState, List.foldl]
    norm_num [processTime, amSet, tlGet, List.find?, bucketSize, C2wSeries]
  have htimes : ∀ row ∈ C2wRows, ∀ q : ℚ,
      parseNumber (getValue row C2wMapping.time) = some q → 0 ≤ q := by
    intro row hrow q hq
    simp only [C2wRows, List.mem_singleton] at hrow
    subst hrow
    rw [show parseNumber (getValue [("t", JsValue.num 2)] C2wMapping.time) = some 2 from
      by decide] at hq
    simp only [Option.some.injEq] at hq
    rw [← hq]
    norm_num
  have h := C2_amended C2wRows C2wMapping (Or.inr (by decide)) htimes C2wSeries
    (by rw [heval]; exact List.mem_singleton_self _)
  exact ⟨heval, h.1, h.2.1, h.2.2⟩

end KM
